import Mathlib

/-!
Verification of the gossip message envelope codec
(`src/network/p2p/protocol.ts`).

The development shallowly embeds the codec and the JavaScript runtime
facilities it relies on:

* JSON values are the inductive `JsonValue` (JSON numbers are modelled as
  integers; fractional/exponent literals are outside the model, no claim
  involves them).
* `JSON.stringify` is `jsonStringify` (insertion-order keys, minimal string
  escaping exactly as the JS builtin produces it).
* `JSON.parse` is `jsonParse`, a fuel-indexed recursive-descent parser over
  the JSON grammar (whitespace, escapes, surrogate pairs, leading-zero
  rejection); `none` models the builtin throwing a `SyntaxError`.
* `TextEncoder.encode` is `utf8Encode`; `TextDecoder.decode` (with its
  default `fatal: false`) is `utf8Decode`, the WHATWG decoder that replaces
  each maximal invalid subpart with U+FFFD and strips a leading BOM.
* The shape validator `isGossipMessage` is imported by the source from
  `~/types/typeguards`, which is not part of the repository snapshot; it is
  modelled from the spec (section 4.1), parameterized by the two opaque
  external payload predicates via `ShapePreds`.
* `neverthrow`'s `Result` is the inductive `Result`.
-/

/-- JsonValue models the values manipulated by the JavaScript runtime after
`JSON.parse` / before `JSON.stringify`: null, booleans, numbers (modelled as
integers), strings, arrays and objects (insertion-ordered field lists). -/
inductive JsonValue where
  | null : JsonValue
  | bool (b : Bool) : JsonValue
  | num (n : Int) : JsonValue
  | str (s : String) : JsonValue
  | arr (elems : List JsonValue) : JsonValue
  | obj (fields : List (String × JsonValue)) : JsonValue

/-- Result mirrors the `neverthrow` `Result<T, E>` type used by the source:
`ok` carries a success value, `err` carries an error value. -/
inductive Result (T E : Type) where
  | ok (value : T)
  | err (error : E)

/-- ShapePreds packages the shape predicates of the two payload types that
are opaque to this core (spec section 3: `IdentityRegistryEvent` and
`ApplicationMessage` are owned by external collaborators); the validator
delegates to them to disambiguate the two `root`/`count` variants. -/
structure ShapePreds where
  isMessage : JsonValue → Bool
  isIDRegistryEvent : JsonValue → Bool

/-- NETWORK_TOPIC_PRIMARY is the network topic for all FC protocol
messages (`protocol.ts` line 7). -/
def NETWORK_TOPIC_PRIMARY : String := "f_network_topic_primary"

/-- NETWORK_TOPIC_CONTACT is the network topic for node contact info
messages (`protocol.ts` line 9). -/
def NETWORK_TOPIC_CONTACT : String := "f_network_topic_contact"

/-- GOSSIP_CONTACT_INTERVAL is the rate at which nodes republish their
contact info (`protocol.ts` line 11). -/
def GOSSIP_CONTACT_INTERVAL : Nat := 10000

/-- GOSSIP_TOPICS is the list of all gossip topics in use by the protocol
(`protocol.ts` line 13). -/
def GOSSIP_TOPICS : List String := [NETWORK_TOPIC_CONTACT, NETWORK_TOPIC_PRIMARY]

/-- getField models JavaScript property lookup on an object built by
`JSON.parse`: with duplicate keys the last occurrence wins, absence is
`none` (which also models a JS `undefined` read). -/
def getField : List (String × JsonValue) → String → Option JsonValue
  | [], _ => none
  | (k, v) :: rest, key =>
    match getField rest key with
    | some v2 => some v2
    | none => if k = key then some v else none

/-- Modelled from the spec: the network-address shape of the optional
`rpcAddress` field (spec section 6 wire format: `address` a string, `port` a
number, `family` absent or a string). The concrete typeguard lives in
`~/types/typeguards`, outside the repository snapshot. -/
def isAddressInfo : JsonValue → Bool
  | .obj fields =>
    (match getField fields "address" with
     | some (.str _) => true
     | _ => false)
    && (match getField fields "port" with
        | some (.num _) => true
        | _ => false)
    && (match getField fields "family" with
        | none => true
        | some (.str _) => true
        | _ => false)
  | _ => false

/-- Modelled from the spec: the `ContactInfoContent` shape check (spec
section 4.1: `peerId` present as a string, `rpcAddress` absent or matching
the network-address shape). -/
def isContactInfoContent : JsonValue → Bool
  | .obj fields =>
    (match getField fields "peerId" with
     | some (.str _) => true
     | _ => false)
    && (match getField fields "rpcAddress" with
        | none => true
        | some a => isAddressInfo a)
  | _ => false

/-- Modelled from the spec: `isValidContent` (spec section 4.1) — the value
matches `ContactInfoContent`, or else one of `RegistryEventContent` /
`UserContent` (`root` a string, `count` a number, and `message` satisfying
the corresponding external payload shape predicate). -/
def isValidContent (p : ShapePreds) (v : JsonValue) : Bool :=
  isContactInfoContent v ||
  (match v with
   | .obj fields =>
     (match getField fields "root" with
      | some (.str _) => true
      | _ => false)
     && (match getField fields "count" with
         | some (.num _) => true
         | _ => false)
     && (match getField fields "message" with
         | some m => p.isIDRegistryEvent m || p.isMessage m
         | none => false)
   | _ => false)

/-- Modelled from the spec: `isGossipMessage` (named after the typeguard the
source imports; spec section 4.1's `isValidEnvelope`) — an object whose
`content` satisfies `isValidContent` and whose `topics` is a non-empty
sequence of strings. -/
def isGossipMessage (p : ShapePreds) : JsonValue → Bool
  | .obj fields =>
    (match getField fields "content" with
     | some c => isValidContent p c
     | none => false)
    && (match getField fields "topics" with
        | some (.arr ts) =>
          !ts.isEmpty && ts.all (fun t => match t with | .str _ => true | _ => false)
        | _ => false)
  | _ => false

/-- jsFalsy models JavaScript falsiness (`!value`) on the values `JSON.parse`
can produce: `null`, `false`, `0` and the empty string are falsy. -/
def jsFalsy : JsonValue → Bool
  | .null => true
  | .bool b => !b
  | .num n => n == 0
  | .str s => s == ""
  | _ => false

/-- lbraceChar is the opening curly bracket character (code point 123). -/
def lbraceChar : Char := Char.ofNat 123

/-- rbraceChar is the closing curly bracket character (code point 125). -/
def rbraceChar : Char := Char.ofNat 125

/-- digitChar maps a digit value to its decimal digit character. -/
def digitChar (n : Nat) : Char := Char.ofNat (48 + n)

/-- natToDigits renders a natural number in decimal, as `Number.prototype.toString`
does for non-negative integers (no leading zeros, `0` for zero). -/
def natToDigits (n : Nat) : List Char :=
  if _h : n < 10 then [digitChar n]
  else natToDigits (n / 10) ++ [digitChar (n % 10)]
  decreasing_by exact Nat.div_lt_self (by omega) (by omega)

/-- intToChars renders an integer the way `JSON.stringify` renders an
integral JS number. -/
def intToChars (n : Int) : List Char :=
  if n < 0 then '-' :: natToDigits n.natAbs else natToDigits n.natAbs

/-- hexDigitChar maps a value below 16 to its lowercase hexadecimal digit,
as `JSON.stringify` emits in `\u00xx` escapes. -/
def hexDigitChar (n : Nat) : Char :=
  if n < 10 then Char.ofNat (48 + n) else Char.ofNat (87 + n)

/-- escapeChar renders one character inside a JSON string literal exactly as
`JSON.stringify` does: short escapes for quote, backslash and the five named
control characters, `\u00xx` for the remaining control characters, and the
character itself otherwise. -/
def escapeChar (c : Char) : List Char :=
  if c = '"' then ['\\', '"']
  else if c = '\\' then ['\\', '\\']
  else if c.toNat = 8 then ['\\', 'b']
  else if c.toNat = 9 then ['\\', 't']
  else if c.toNat = 10 then ['\\', 'n']
  else if c.toNat = 12 then ['\\', 'f']
  else if c.toNat = 13 then ['\\', 'r']
  else if c.toNat < 32 then
    "\\u00".toList ++ [hexDigitChar (c.toNat / 16), hexDigitChar (c.toNat % 16)]
  else [c]

/-- escapeChars escapes every character of a string body in turn. -/
def escapeChars : List Char → List Char
  | [] => []
  | c :: rest => escapeChar c ++ escapeChars rest

/-- printString renders a JSON string literal with its surrounding quotes. -/
def printString (s : String) : List Char :=
  '"' :: (escapeChars s.toList ++ ['"'])

/-- lit is the character list of a string literal, used for the fixed words
of the JSON grammar. -/
def lit (s : String) : List Char := s.toList

mutual

/-- printVal renders a `JsonValue` exactly as `JSON.stringify` (with no
indent argument) renders the corresponding JS value: no whitespace,
insertion-order object keys. -/
def printVal : JsonValue → List Char
  | .null => lit "null"
  | .bool true => lit "true"
  | .bool false => lit "false"
  | .num n => intToChars n
  | .str s => printString s
  | .arr xs => '[' :: (printElems xs ++ [']'])
  | .obj fs => lbraceChar :: (printFields fs ++ [rbraceChar])

/-- printElems renders the comma-separated element list of a JSON array. -/
def printElems : List JsonValue → List Char
  | [] => []
  | [x] => printVal x
  | x :: y :: rest => printVal x ++ (',' :: printElems (y :: rest))

/-- printFields renders the comma-separated `"key":value` list of a JSON
object. -/
def printFields : List (String × JsonValue) → List Char
  | [] => []
  | [(k, v)] => printString k ++ (':' :: printVal v)
  | (k, v) :: f :: rest =>
    printString k ++ (':' :: (printVal v ++ (',' :: printFields (f :: rest))))

end

/-- jsonStringify models `JSON.stringify` on JSON-representable values. -/
def jsonStringify (v : JsonValue) : String := String.mk (printVal v)

mutual

/-- jweight is a structural size measure used to budget the parser's fuel:
leaves weigh one, containers weigh one plus the weight of their children
plus one per child. -/
def jweight : JsonValue → Nat
  | .arr xs => 1 + jweightElems xs
  | .obj fs => 1 + jweightFields fs
  | _ => 1

/-- jweightElems is the element-list component of `jweight`. -/
def jweightElems : List JsonValue → Nat
  | [] => 0
  | x :: xs => 1 + jweight x + jweightElems xs

/-- jweightFields is the field-list component of `jweight`. -/
def jweightFields : List (String × JsonValue) → Nat
  | [] => 0
  | (_, v) :: fs => 1 + jweight v + jweightFields fs

end

/-- isWsChar recognizes the four JSON whitespace characters (space, tab,
line feed, carriage return). -/
def isWsChar (c : Char) : Bool :=
  c.toNat = 32 || c.toNat = 9 || c.toNat = 10 || c.toNat = 13

/-- skipWs drops leading JSON whitespace. -/
def skipWs : List Char → List Char
  | [] => []
  | c :: rest => if isWsChar c then skipWs rest else c :: rest

/-- hexVal reads one hexadecimal digit (either case), as in `\uXXXX`
escapes. -/
def hexVal (c : Char) : Option Nat :=
  if 48 ≤ c.toNat ∧ c.toNat ≤ 57 then some (c.toNat - 48)
  else if 97 ≤ c.toNat ∧ c.toNat ≤ 102 then some (c.toNat - 87)
  else if 65 ≤ c.toNat ∧ c.toNat ≤ 70 then some (c.toNat - 55)
  else none

/-- digitVal reads one decimal digit. -/
def digitVal (c : Char) : Option Nat :=
  if 48 ≤ c.toNat ∧ c.toNat ≤ 57 then some (c.toNat - 48) else none

/-- replChar is U+FFFD, the Unicode replacement character. -/
def replChar : Char := Char.ofNat 65533

/-- StrTok is a lexical unit of a JSON string body: a plain character (a
literal character or a short escape) or the raw value of a `\\uXXXX`
escape, kept unresolved so that surrogate escape pairs can be combined in a
second pass as `JSON.parse` does. -/
inductive StrTok where
  | ch (c : Char) : StrTok
  | esc (n : Nat) : StrTok

/-- consTok prepends a token to the token-list component of a lexing
result. -/
def consTok (t : StrTok) : Option (List StrTok × List Char) → Option (List StrTok × List Char)
  | none => none
  | some (ts, r) => some (t :: ts, r)

/-- lexStringBody lexes the body of a JSON string literal after its opening
quote, following `JSON.parse`: raw control characters are rejected, the
eight short escapes resolve to their characters, and `\\uXXXX` escapes are
kept as raw values; it returns the tokens and the input after the closing
quote. -/
def lexStringBody : List Char → Option (List StrTok × List Char)
  | [] => none
  | c :: rest =>
    if c = '"' then some ([], rest)
    else if c = '\\' then
      match rest with
      | [] => none
      | e :: rest2 =>
        if e = '"' then consTok (.ch '"') (lexStringBody rest2)
        else if e = '\\' then consTok (.ch '\\') (lexStringBody rest2)
        else if e = '/' then consTok (.ch '/') (lexStringBody rest2)
        else if e = 'b' then consTok (.ch (Char.ofNat 8)) (lexStringBody rest2)
        else if e = 'f' then consTok (.ch (Char.ofNat 12)) (lexStringBody rest2)
        else if e = 'n' then consTok (.ch (Char.ofNat 10)) (lexStringBody rest2)
        else if e = 'r' then consTok (.ch (Char.ofNat 13)) (lexStringBody rest2)
        else if e = 't' then consTok (.ch (Char.ofNat 9)) (lexStringBody rest2)
        else if e = 'u' then
          match rest2 with
          | h1 :: h2 :: h3 :: h4 :: rest3 =>
            match hexVal h1, hexVal h2, hexVal h3, hexVal h4 with
            | some a, some b, some c1, some d =>
              consTok (.esc (4096 * a + 256 * b + 16 * c1 + d)) (lexStringBody rest3)
            | _, _, _, _ => none
          | _ => none
        else none
    else if c.toNat < 32 then none
    else consTok (.ch c) (lexStringBody rest)

mutual

/-- toksToChars resolves lexed string tokens to characters: scalar-valued
escapes become their character, and a high-surrogate escape tries to pair
with an immediately following low-surrogate escape, as `JSON.parse` does. A
lone surrogate (which a JS string would keep as an unpaired UTF-16 unit) is
mapped to U+FFFD, the value it would become at the `TextEncoder` boundary,
since Lean characters are Unicode scalar values. -/
def toksToChars : List StrTok → List Char
  | [] => []
  | .ch c :: ts => c :: toksToChars ts
  | .esc n :: ts =>
    if n < 55296 ∨ 57344 ≤ n then Char.ofNat n :: toksToChars ts
    else if n < 56320 then pairLow n ts
    else replChar :: toksToChars ts

/-- pairLow resolves the tokens after a high-surrogate escape of value `n`:
a low-surrogate escape completes the pair into one code point; anything
else leaves U+FFFD for the lone high surrogate and continues. -/
def pairLow (n : Nat) : List StrTok → List Char
  | [] => [replChar]
  | .ch c :: ts => replChar :: c :: toksToChars ts
  | .esc m :: ts =>
    if 56320 ≤ m ∧ m < 57344 then
      Char.ofNat (65536 + (n - 55296) * 1024 + (m - 56320)) :: toksToChars ts
    else if m < 55296 ∨ 57344 ≤ m then replChar :: Char.ofNat m :: toksToChars ts
    else if m < 56320 then replChar :: pairLow m ts
    else replChar :: replChar :: toksToChars ts

end

/-- parseStringBody parses the body of a JSON string literal after its
opening quote, returning the body characters and the input following the
closing quote: lex the tokens, then resolve escapes and surrogate pairs. -/
def parseStringBody (s : List Char) : Option (List Char × List Char) :=
  match lexStringBody s with
  | some (toks, rest) => some (toksToChars toks, rest)
  | none => none

/-- parseDigitsAcc consumes a maximal run of decimal digits, folding them
onto an accumulator. -/
def parseDigitsAcc (acc : Nat) : List Char → Nat × List Char
  | [] => (acc, [])
  | c :: rest =>
    match digitVal c with
    | some d => parseDigitsAcc (10 * acc + d) rest
    | none => (acc, c :: rest)

/-- parseNumMag parses the magnitude of a JSON number literal: either a
single `0` or a nonzero-led digit run (JSON rejects leading zeros).
Fraction and exponent parts are outside the integer model and rejected. -/
def parseNumMag : List Char → Option (Nat × List Char)
  | [] => none
  | c :: rest =>
    if c = '0' then
      match rest with
      | [] => some (0, [])
      | d :: _ =>
        if (digitVal d).isSome || d = '.' || d = 'e' || d = 'E' then none
        else some (0, rest)
    else
      match digitVal c with
      | some d =>
        match parseDigitsAcc d rest with
        | (n, []) => some (n, [])
        | (n, x :: r) =>
          if x = '.' || x = 'e' || x = 'E' then none else some (n, x :: r)
      | none => none

/-- parseNumber parses a JSON number literal (integer fragment), with its
optional leading minus sign. -/
def parseNumber : List Char → Option (Int × List Char)
  | [] => none
  | c :: rest =>
    if c = '-' then
      match parseNumMag rest with
      | some (n, r) => some (-(n : Int), r)
      | none => none
    else
      match parseNumMag (c :: rest) with
      | some (n, r) => some ((n : Int), r)
      | none => none

mutual

/-- parseValue parses one JSON value (after skipping leading whitespace),
returning it with the unconsumed input. The fuel argument bounds the
nesting the parser will descend through; `jsonParse` supplies more fuel
than any input can need. -/
def parseValue : Nat → List Char → Option (JsonValue × List Char)
  | 0, _ => none
  | fuel + 1, s =>
    match skipWs s with
    | [] => none
    | c :: rest =>
      if c = lbraceChar then
        match skipWs rest with
        | [] => none
        | c2 :: rest2 =>
          if c2 = rbraceChar then some (.obj [], rest2)
          else
            match parseFields fuel (c2 :: rest2) with
            | some (fs, r) => some (.obj fs, r)
            | none => none
      else if c = '[' then
        match skipWs rest with
        | [] => none
        | c2 :: rest2 =>
          if c2 = ']' then some (.arr [], rest2)
          else
            match parseElems fuel (c2 :: rest2) with
            | some (xs, r) => some (.arr xs, r)
            | none => none
      else if c = '"' then
        match parseStringBody rest with
        | some (cs, r) => some (.str (String.mk cs), r)
        | none => none
      else if c = 't' then
        match rest with
        | 'r' :: 'u' :: 'e' :: r => some (.bool true, r)
        | _ => none
      else if c = 'f' then
        match rest with
        | 'a' :: 'l' :: 's' :: 'e' :: r => some (.bool false, r)
        | _ => none
      else if c = 'n' then
        match rest with
        | 'u' :: 'l' :: 'l' :: r => some (.null, r)
        | _ => none
      else
        match parseNumber (c :: rest) with
        | some (n, r) => some (.num n, r)
        | none => none

/-- parseElems parses the non-empty element list of a JSON array, positioned
at the first element, and consumes the closing bracket. -/
def parseElems : Nat → List Char → Option (List JsonValue × List Char)
  | 0, _ => none
  | fuel + 1, s =>
    match parseValue fuel s with
    | some (v, r) =>
      (match skipWs r with
       | [] => none
       | c :: r2 =>
         if c = ',' then
           match parseElems fuel r2 with
           | some (vs, r3) => some (v :: vs, r3)
           | none => none
         else if c = ']' then some ([v], r2)
         else none)
    | none => none

/-- parseFields parses the non-empty field list of a JSON object, positioned
at the first key's opening quote, and consumes the closing brace. -/
def parseFields : Nat → List Char → Option (List (String × JsonValue) × List Char)
  | 0, _ => none
  | fuel + 1, s =>
    match s with
    | [] => none
    | c :: rest =>
      if c = '"' then
        match parseStringBody rest with
        | some (kcs, r1) =>
          (match skipWs r1 with
           | [] => none
           | c2 :: r2 =>
             if c2 = ':' then
               match parseValue fuel r2 with
               | some (v, r3) =>
                 (match skipWs r3 with
                  | [] => none
                  | c3 :: r4 =>
                    if c3 = ',' then
                      match parseFields fuel (skipWs r4) with
                      | some (fs, r5) => some ((String.mk kcs, v) :: fs, r5)
                      | none => none
                    else if c3 = rbraceChar then some ([(String.mk kcs, v)], r4)
                    else none)
               | none => none
             else none)
        | none => none
      else none

end

/-- jsonParse models `JSON.parse`: parse one value, allow trailing
whitespace, require the whole input consumed; `none` models the builtin
throwing a `SyntaxError`. -/
def jsonParse (s : String) : Option JsonValue :=
  let cs := s.toList
  match parseValue (cs.length + 1) cs with
  | some (v, r) =>
    (match skipWs r with
     | [] => some v
     | _ :: _ => none)
  | none => none

/-- utf8EncodeChar encodes one Unicode scalar value as its UTF-8 byte
sequence, as `TextEncoder.encode` does per character. -/
def utf8EncodeChar (c : Char) : List Nat :=
  let n := c.toNat
  if n < 128 then [n]
  else if n < 2048 then [192 + n / 64, 128 + n % 64]
  else if n < 65536 then [224 + n / 4096, 128 + n / 64 % 64, 128 + n % 64]
  else [240 + n / 262144, 128 + n / 4096 % 64, 128 + n / 64 % 64, 128 + n % 64]

/-- utf8EncodeChars encodes a character sequence as UTF-8 bytes. -/
def utf8EncodeChars : List Char → List Nat
  | [] => []
  | c :: rest => utf8EncodeChar c ++ utf8EncodeChars rest

/-- utf8Encode models `new TextEncoder().encode(s)`: the UTF-8 bytes of the
string. -/
def utf8Encode (s : String) : List Nat := utf8EncodeChars s.toList

/-- isCont recognizes a UTF-8 continuation byte (0x80–0xBF). -/
def isCont (b : Nat) : Bool := 128 ≤ b && b < 192

/-- utf8DecodeChars is the WHATWG UTF-8 decoder with replacement (the
behavior of `new TextDecoder().decode` with its default `fatal: false`):
each maximal invalid subpart becomes one U+FFFD, decoding resumes at the
first byte that failed. The first continuation byte's admissible range
depends on the lead byte (0xE0, 0xED, 0xF0 and 0xF4 restrict it), which
rules out overlong forms, surrogates and values above 0x10FFFF. -/
def utf8DecodeChars : List Nat → List Char
  | [] => []
  | b :: rest =>
    if b < 128 then Char.ofNat b :: utf8DecodeChars rest
    else if b < 194 then replChar :: utf8DecodeChars rest
    else if b < 224 then
      match rest with
      | [] => [replChar]
      | b1 :: rest1 =>
        if isCont b1 then
          Char.ofNat ((b - 192) * 64 + (b1 - 128)) :: utf8DecodeChars rest1
        else replChar :: utf8DecodeChars (b1 :: rest1)
    else if b < 240 then
      match rest with
      | [] => [replChar]
      | b1 :: rest1 =>
        if (if b = 224 then 160 else 128) ≤ b1 ∧ b1 ≤ (if b = 237 then 159 else 191) then
          match rest1 with
          | [] => [replChar]
          | b2 :: rest2 =>
            if isCont b2 then
              Char.ofNat ((b - 224) * 4096 + (b1 - 128) * 64 + (b2 - 128)) :: utf8DecodeChars rest2
            else replChar :: utf8DecodeChars (b2 :: rest2)
        else replChar :: utf8DecodeChars (b1 :: rest1)
    else if b < 245 then
      match rest with
      | [] => [replChar]
      | b1 :: rest1 =>
        if (if b = 240 then 144 else 128) ≤ b1 ∧ b1 ≤ (if b = 244 then 143 else 191) then
          match rest1 with
          | [] => [replChar]
          | b2 :: rest2 =>
            if isCont b2 then
              match rest2 with
              | [] => [replChar]
              | b3 :: rest3 =>
                if isCont b3 then
                  Char.ofNat ((b - 240) * 262144 + (b1 - 128) * 4096 + (b2 - 128) * 64 + (b3 - 128))
                    :: utf8DecodeChars rest3
                else replChar :: utf8DecodeChars (b3 :: rest3)
            else replChar :: utf8DecodeChars (b2 :: rest2)
        else replChar :: utf8DecodeChars (b1 :: rest1)
    else replChar :: utf8DecodeChars rest

/-- utf8DecodeBytes strips the optional UTF-8 byte order mark (which the
default `TextDecoder` removes) before decoding. -/
def utf8DecodeBytes : List Nat → List Char
  | 239 :: 187 :: 191 :: rest => utf8DecodeChars rest
  | bytes => utf8DecodeChars bytes

/-- utf8Decode models `new TextDecoder().decode(data)` with the decoder's
default options (`fatal: false`, `ignoreBOM: false`). -/
def utf8Decode (bytes : List Nat) : String := String.mk (utf8DecodeBytes bytes)

/-- isValidUtf8 decides whether a byte sequence is well-formed UTF-8 (the
sequences the replacement decoder maps without any U+FFFD substitution). -/
def isValidUtf8 : List Nat → Bool
  | [] => true
  | b :: rest =>
    if b < 128 then isValidUtf8 rest
    else if b < 194 then false
    else if b < 224 then
      match rest with
      | b1 :: rest1 => isCont b1 && isValidUtf8 rest1
      | [] => false
    else if b < 240 then
      match rest with
      | b1 :: b2 :: rest2 =>
        decide ((if b = 224 then 160 else 128) ≤ b1 ∧ b1 ≤ (if b = 237 then 159 else 191))
          && isCont b2 && isValidUtf8 rest2
      | _ => false
    else if b < 245 then
      match rest with
      | b1 :: b2 :: b3 :: rest3 =>
        decide ((if b = 240 then 144 else 128) ≤ b1 ∧ b1 ≤ (if b = 244 then 143 else 191))
          && isCont b2 && isCont b3 && isValidUtf8 rest3
      | _ => false
    else false

/-- encodeMessage embeds `encodeMessage` from `protocol.ts` (lines 76–80):
validate, `JSON.stringify`, then UTF-8 encode. -/
def encodeMessage (p : ShapePreds) (message : JsonValue) : Result (List Nat) String :=
  if !isGossipMessage p message then .err "Invalid Message"
  else .ok (utf8Encode (jsonStringify message))

/-- decodeMessage embeds `decodeMessage` from `protocol.ts` (lines 89–102):
UTF-8 decode, `JSON.parse` (whose throw, modelled by `none`, is caught and
turned into the error result), then the falsy check and the validator, all
failure modes sharing one error string. -/
def decodeMessage (p : ShapePreds) (data : List Nat) : Result JsonValue String :=
  match jsonParse (utf8Decode data) with
  | none => .err "Failed to decode Gossip message..."
  | some message =>
    if jsFalsy message then .err "Failed to decode Gossip message..."
    else if !isGossipMessage p message then .err "Failed to decode Gossip message..."
    else .ok message

/-- numBoundary holds of an input that cannot extend a preceding number
literal: empty, or led by a character that is neither a digit nor a
fraction/exponent marker. Every printed JSON context following a number
(separator, closing bracket, end of input) satisfies it. -/
def numBoundary : List Char → Bool
  | [] => true
  | c :: _ => (digitVal c).isNone && c != '.' && c != 'e' && c != 'E'

/-- char_toNat_ofNat recovers the code point of `Char.ofNat` on valid
scalar values. -/
theorem char_toNat_ofNat (n : Nat) (h : Nat.isValidChar n) : (Char.ofNat n).toNat = n := by
  simp [Char.ofNat, h, Char.ofNatAux, Char.toNat]
  rfl

/-- char_toNat_ofNat_lt specializes `char_toNat_ofNat` to code points below
the surrogate range. -/
theorem char_toNat_ofNat_lt (n : Nat) (h : n < 55296) : (Char.ofNat n).toNat = n :=
  char_toNat_ofNat n (Or.inl h)

/-- char_eq_of_toNat_eq lifts code point equality to character equality. -/
theorem char_eq_of_toNat_eq (c d : Char) (h : c.toNat = d.toNat) : c = d := by
  apply Char.eq_of_val_eq
  apply UInt32.ext
  exact h

/-- char_valid_ranges restates a character's scalar-value constraint as
arithmetic bounds. -/
theorem char_valid_ranges (c : Char) :
    c.toNat < 55296 ∨ (57344 ≤ c.toNat ∧ c.toNat < 1114112) := c.valid

/-- digitChar_toNat computes the code point of a decimal digit character. -/
theorem digitChar_toNat (d : Nat) (h : d < 10) : (digitChar d).toNat = 48 + d :=
  char_toNat_ofNat_lt (48 + d) (by omega)

/-- digitVal_digitChar reads back a printed decimal digit. -/
theorem digitVal_digitChar (d : Nat) (h : d < 10) : digitVal (digitChar d) = some d := by
  have ht := digitChar_toNat d h
  simp [digitVal, ht]
  omega

/-- hexDigitChar_toNat computes the code point of a printed hexadecimal
digit. -/
theorem hexDigitChar_toNat (x : Nat) (h : x < 16) :
    (hexDigitChar x).toNat = if x < 10 then 48 + x else 87 + x := by
  unfold hexDigitChar
  split
  · exact char_toNat_ofNat_lt _ (by omega)
  · exact char_toNat_ofNat_lt _ (by omega)

/-- hexVal_hexDigitChar reads back a printed hexadecimal digit. -/
theorem hexVal_hexDigitChar (x : Nat) (h : x < 16) : hexVal (hexDigitChar x) = some x := by
  have ht := hexDigitChar_toNat x h
  by_cases h10 : x < 10
  · have ht2 : (hexDigitChar x).toNat = 48 + x := by rw [ht, if_pos h10]
    unfold hexVal
    simp only [ht2]
    rw [if_pos (by omega)]
    congr 1
    omega
  · have ht2 : (hexDigitChar x).toNat = 87 + x := by rw [ht, if_neg h10]
    unfold hexVal
    simp only [ht2]
    rw [if_neg (by omega), if_pos (by omega)]
    congr 1
    omega

/-- natToDigits_head exposes the leading digit of a printed natural number;
it is nonzero whenever the number is. -/
theorem natToDigits_head (n : Nat) :
    ∃ d cs, d < 10 ∧ natToDigits n = digitChar d :: cs ∧ (0 < n → 0 < d) := by
  induction n using Nat.strong_induction_on with
  | _ n ih =>
    by_cases h : n < 10
    · refine ⟨n, [], h, ?_, fun hn => hn⟩
      rw [natToDigits, dif_pos h]
    · obtain ⟨d, cs, hd, heq, hpos⟩ := ih (n / 10) (Nat.div_lt_self (by omega) (by omega))
      refine ⟨d, cs ++ [digitChar (n % 10)], hd, ?_, fun _ => hpos (by omega)⟩
      rw [natToDigits, dif_neg h, heq]
      simp

/-- parseDigitsAcc_digits folds a printed natural number onto the
accumulator and continues with the remaining input. -/
theorem parseDigitsAcc_digits (n : Nat) :
    ∀ acc rest, parseDigitsAcc acc (natToDigits n ++ rest) =
      parseDigitsAcc (acc * 10 ^ (natToDigits n).length + n) rest := by
  induction n using Nat.strong_induction_on with
  | _ n ih =>
    intro acc rest
    by_cases h : n < 10
    · rw [natToDigits, dif_pos h]
      have hstep : parseDigitsAcc acc ([digitChar n] ++ rest) = parseDigitsAcc (10 * acc + n) rest := by
        simp [parseDigitsAcc, digitVal_digitChar n h]
      rw [hstep]
      congr 1
      rw [List.length_singleton, pow_one]
      ring
    · rw [natToDigits, dif_neg h]
      have hlt : n / 10 < n := Nat.div_lt_self (by omega) (by omega)
      have h1 : (natToDigits (n / 10) ++ [digitChar (n % 10)]) ++ rest
          = natToDigits (n / 10) ++ (digitChar (n % 10) :: rest) := by simp
      rw [h1, ih (n / 10) hlt acc _]
      have h2 : parseDigitsAcc (acc * 10 ^ (natToDigits (n / 10)).length + n / 10)
            (digitChar (n % 10) :: rest)
          = parseDigitsAcc (10 * (acc * 10 ^ (natToDigits (n / 10)).length + n / 10) + n % 10)
            rest := by
        simp [parseDigitsAcc, digitVal_digitChar (n % 10) (by omega)]
      rw [h2]
      have hdm : 10 * (n / 10) + n % 10 = n := Nat.div_add_mod n 10
      have hlen : (natToDigits (n / 10) ++ [digitChar (n % 10)]).length
          = (natToDigits (n / 10)).length + 1 := by simp
      rw [hlen, Nat.pow_succ]
      calc parseDigitsAcc (10 * (acc * 10 ^ (natToDigits (n / 10)).length + n / 10) + n % 10) rest
          = parseDigitsAcc
              (acc * (10 ^ (natToDigits (n / 10)).length * 10) + (10 * (n / 10) + n % 10))
              rest := by
            congr 1
            ring
        _ = parseDigitsAcc (acc * (10 ^ (natToDigits (n / 10)).length * 10) + n) rest := by
            rw [hdm]

/-- parseDigitsAcc_stop leaves input not starting with a digit untouched. -/
theorem parseDigitsAcc_stop (acc : Nat) (rest : List Char) (h : numBoundary rest = true) :
    parseDigitsAcc acc rest = (acc, rest) := by
  cases rest with
  | nil => rfl
  | cons c r =>
    simp [numBoundary] at h
    obtain ⟨⟨⟨hd, _⟩, _⟩, _⟩ := h
    simp [parseDigitsAcc, hd]

/-- digitChar_zero identifies the printed zero digit. -/
theorem digitChar_zero : digitChar 0 = '0' := by
  apply char_eq_of_toNat_eq
  rw [digitChar_toNat 0 (by omega)]
  rfl

/-- numBoundary_facts unpacks the boundary condition on a non-empty input. -/
theorem numBoundary_facts (c : Char) (r : List Char) (h : numBoundary (c :: r) = true) :
    digitVal c = none ∧ c ≠ '.' ∧ c ≠ 'e' ∧ c ≠ 'E' := by
  simp [numBoundary] at h
  exact ⟨h.1.1.1, h.1.1.2, h.1.2, h.2⟩

/-- parseNumMag_digits parses back a printed natural number magnitude when
the remaining input cannot extend the literal. -/
theorem parseNumMag_digits (n : Nat) (rest : List Char) (h : numBoundary rest = true) :
    parseNumMag (natToDigits n ++ rest) = some (n, rest) := by
  rcases Nat.eq_zero_or_pos n with hz | hpos
  · subst hz
    have : natToDigits 0 = ['0'] := by rw [natToDigits, dif_pos (by omega), digitChar_zero]
    rw [this]
    cases rest with
    | nil => rfl
    | cons c r =>
      obtain ⟨hd, hdot, he, hE⟩ := numBoundary_facts c r h
      simp [parseNumMag, hd, hdot, he, hE]
  · obtain ⟨d, cs, hd10, heq, hdpos⟩ := natToDigits_head n
    have hdpos : 0 < d := hdpos hpos
    have hne0 : digitChar d ≠ '0' := by
      intro hc
      have := congrArg Char.toNat hc
      rw [digitChar_toNat d hd10] at this
      have h0 : ('0').toNat = 48 := rfl
      omega
    have hself : parseDigitsAcc d (cs ++ rest) = (n, rest) := by
      have hfull := parseDigitsAcc_digits n 0 rest
      rw [heq] at hfull
      have hcons : parseDigitsAcc 0 ((digitChar d :: cs) ++ rest) = parseDigitsAcc d (cs ++ rest) := by
        simp [parseDigitsAcc, digitVal_digitChar d hd10]
      rw [hcons] at hfull
      rw [hfull]
      simp
      exact parseDigitsAcc_stop n rest h
    rw [heq]
    show parseNumMag (digitChar d :: (cs ++ rest)) = some (n, rest)
    simp only [parseNumMag, if_neg hne0, digitVal_digitChar d hd10, hself]
    cases rest with
    | nil => rfl
    | cons c r =>
      obtain ⟨hd, hdot, he, hE⟩ := numBoundary_facts c r h
      simp [hdot, he, hE]

/-- parseNumber_int parses back a printed integer when the remaining input
cannot extend the literal. -/
theorem parseNumber_int (k : Int) (rest : List Char) (h : numBoundary rest = true) :
    parseNumber (intToChars k ++ rest) = some (k, rest) := by
  by_cases hneg : k < 0
  · rw [intToChars, if_pos hneg]
    show parseNumber ('-' :: (natToDigits k.natAbs ++ rest)) = some (k, rest)
    rw [parseNumber]
    rw [if_pos rfl]
    rw [parseNumMag_digits k.natAbs rest h]
    show some (-((k.natAbs : Int)), rest) = some (k, rest)
    have : -((k.natAbs : Int)) = k := by omega
    rw [this]
  · rw [intToChars, if_neg hneg]
    obtain ⟨d, cs, hd10, heq, _⟩ := natToDigits_head k.natAbs
    rw [heq]
    show parseNumber (digitChar d :: (cs ++ rest)) = some (k, rest)
    have hnm : digitChar d ≠ '-' := by
      intro hc
      have := congrArg Char.toNat hc
      rw [digitChar_toNat d hd10] at this
      have hm : ('-').toNat = 45 := rfl
      omega
    rw [parseNumber, if_neg hnm]
    have : digitChar d :: (cs ++ rest) = natToDigits k.natAbs ++ rest := by rw [heq]; rfl
    rw [this, parseNumMag_digits k.natAbs rest h]
    show some (((k.natAbs : Int)), rest) = some (k, rest)
    have h2 : ((k.natAbs : Int)) = k := by omega
    rw [h2]

/-- char_ne_of_toNat_ne derives character inequality from distinct code
points. -/
theorem char_ne_of_toNat_ne (c d : Char) (h : c.toNat ≠ d.toNat) : c ≠ d := by
  intro hc
  exact h (congrArg Char.toNat hc)

/-- lexStringBody_escape lexes back an escaped string body up to the
closing quote: the tokens resolve to the original characters. -/
theorem lexStringBody_escape (cs : List Char) :
    ∀ rest, ∃ toks, lexStringBody (escapeChars cs ++ '"' :: rest) = some (toks, rest) ∧
      toksToChars toks = cs := by
  induction cs with
  | nil =>
    intro rest
    refine ⟨[], ?_, rfl⟩
    show lexStringBody ('"' :: rest) = some ([], rest)
    rw [lexStringBody.eq_def]
    simp
  | cons c cs ih =>
    intro rest
    obtain ⟨toks, hlex, htoks⟩ := ih rest
    have hstep : escapeChars (c :: cs) ++ '"' :: rest
        = escapeChar c ++ (escapeChars cs ++ '"' :: rest) := by
      simp [escapeChars]
    rw [hstep]
    by_cases hq : c = '"'
    · subst hq
      refine ⟨.ch '"' :: toks, ?_, by rw [toksToChars, htoks]⟩
      have h1 : escapeChar '"' = ['\\', '"'] := by simp [escapeChar]
      rw [h1]
      show lexStringBody ('\\' :: '"' :: (escapeChars cs ++ '"' :: rest)) = _
      rw [lexStringBody.eq_def]
      try dsimp only
      rw [if_neg (by decide), if_pos rfl]
      try dsimp only
      rw [if_pos rfl, hlex]
      rfl
    by_cases hb : c = '\\'
    · subst hb
      refine ⟨.ch '\\' :: toks, ?_, by rw [toksToChars, htoks]⟩
      have h1 : escapeChar '\\' = ['\\', '\\'] := by simp [escapeChar]
      rw [h1]
      show lexStringBody ('\\' :: '\\' :: (escapeChars cs ++ '"' :: rest)) = _
      rw [lexStringBody.eq_def]
      try dsimp only
      rw [if_neg (by decide), if_pos rfl]
      try dsimp only
      rw [if_neg (by decide), if_pos rfl, hlex]
      rfl
    by_cases h8 : c.toNat = 8
    · have hc : Char.ofNat 8 = c := by rw [← h8, Char.ofNat_toNat]
      refine ⟨.ch (Char.ofNat 8) :: toks, ?_, by rw [toksToChars, htoks, hc]⟩
      have h1 : escapeChar c = ['\\', 'b'] := by simp [escapeChar, hq, hb, h8]
      rw [h1]
      show lexStringBody ('\\' :: 'b' :: (escapeChars cs ++ '"' :: rest)) = _
      rw [lexStringBody.eq_def]
      try dsimp only
      rw [if_neg (by decide), if_pos rfl]
      try dsimp only
      rw [if_neg (by decide), if_neg (by decide), if_neg (by decide), if_pos rfl, hlex]
      rfl
    by_cases h9 : c.toNat = 9
    · have hc : Char.ofNat 9 = c := by rw [← h9, Char.ofNat_toNat]
      refine ⟨.ch (Char.ofNat 9) :: toks, ?_, by rw [toksToChars, htoks, hc]⟩
      have h1 : escapeChar c = ['\\', 't'] := by simp [escapeChar, hq, hb, h8, h9]
      rw [h1]
      show lexStringBody ('\\' :: 't' :: (escapeChars cs ++ '"' :: rest)) = _
      rw [lexStringBody.eq_def]
      try dsimp only
      rw [if_neg (by decide), if_pos rfl]
      try dsimp only
      rw [if_neg (by decide), if_neg (by decide), if_neg (by decide), if_neg (by decide),
        if_neg (by decide), if_neg (by decide), if_neg (by decide), if_pos rfl, hlex]
      rfl
    by_cases h10 : c.toNat = 10
    · have hc : Char.ofNat 10 = c := by rw [← h10, Char.ofNat_toNat]
      refine ⟨.ch (Char.ofNat 10) :: toks, ?_, by rw [toksToChars, htoks, hc]⟩
      have h1 : escapeChar c = ['\\', 'n'] := by simp [escapeChar, hq, hb, h8, h9, h10]
      rw [h1]
      show lexStringBody ('\\' :: 'n' :: (escapeChars cs ++ '"' :: rest)) = _
      rw [lexStringBody.eq_def]
      try dsimp only
      rw [if_neg (by decide), if_pos rfl]
      try dsimp only
      rw [if_neg (by decide), if_neg (by decide), if_neg (by decide), if_neg (by decide),
        if_neg (by decide), if_pos rfl, hlex]
      rfl
    by_cases h12 : c.toNat = 12
    · have hc : Char.ofNat 12 = c := by rw [← h12, Char.ofNat_toNat]
      refine ⟨.ch (Char.ofNat 12) :: toks, ?_, by rw [toksToChars, htoks, hc]⟩
      have h1 : escapeChar c = ['\\', 'f'] := by simp [escapeChar, hq, hb, h8, h9, h10, h12]
      rw [h1]
      show lexStringBody ('\\' :: 'f' :: (escapeChars cs ++ '"' :: rest)) = _
      rw [lexStringBody.eq_def]
      try dsimp only
      rw [if_neg (by decide), if_pos rfl]
      try dsimp only
      rw [if_neg (by decide), if_neg (by decide), if_neg (by decide), if_neg (by decide),
        if_pos rfl, hlex]
      rfl
    by_cases h13 : c.toNat = 13
    · have hc : Char.ofNat 13 = c := by rw [← h13, Char.ofNat_toNat]
      refine ⟨.ch (Char.ofNat 13) :: toks, ?_, by rw [toksToChars, htoks, hc]⟩
      have h1 : escapeChar c = ['\\', 'r'] := by
        simp [escapeChar, hq, hb, h8, h9, h10, h12, h13]
      rw [h1]
      show lexStringBody ('\\' :: 'r' :: (escapeChars cs ++ '"' :: rest)) = _
      rw [lexStringBody.eq_def]
      try dsimp only
      rw [if_neg (by decide), if_pos rfl]
      try dsimp only
      rw [if_neg (by decide), if_neg (by decide), if_neg (by decide), if_neg (by decide),
        if_neg (by decide), if_neg (by decide), if_pos rfl, hlex]
      rfl
    by_cases hctrl : c.toNat < 32
    · have hx1 : hexVal (hexDigitChar (c.toNat / 16)) = some (c.toNat / 16) :=
        hexVal_hexDigitChar _ (by omega)
      have hx2 : hexVal (hexDigitChar (c.toNat % 16)) = some (c.toNat % 16) :=
        hexVal_hexDigitChar _ (by omega)
      have hzero : hexVal '0' = some 0 := by decide
      have hval : 4096 * 0 + 256 * 0 + 16 * (c.toNat / 16) + c.toNat % 16 = c.toNat := by omega
      refine ⟨.esc (4096 * 0 + 256 * 0 + 16 * (c.toNat / 16) + c.toNat % 16) :: toks, ?_, ?_⟩
      · have h1 : escapeChar c
            = "\\u00".toList ++ [hexDigitChar (c.toNat / 16), hexDigitChar (c.toNat % 16)] := by
          simp [escapeChar, hq, hb, h8, h9, h10, h12, h13, hctrl]
        rw [h1]
        show lexStringBody
            ('\\' :: 'u' :: '0' :: '0' :: hexDigitChar (c.toNat / 16)
              :: hexDigitChar (c.toNat % 16) :: (escapeChars cs ++ '"' :: rest)) = _
        rw [lexStringBody.eq_def]
        try dsimp only
        rw [if_neg (by decide), if_pos rfl]
        try dsimp only
        rw [if_neg (by decide), if_neg (by decide), if_neg (by decide), if_neg (by decide),
          if_neg (by decide), if_neg (by decide), if_neg (by decide), if_neg (by decide),
          if_pos rfl]
        try dsimp only
        rw [hzero, hx1, hx2]
        try dsimp only
        rw [hlex]
        rfl
      · rw [hval, toksToChars, if_pos (Or.inl (by omega)), Char.ofNat_toNat, htoks]
    · have h1 : escapeChar c = [c] := by
        simp [escapeChar, hq, hb, h8, h9, h10, h12, h13, hctrl]
      refine ⟨.ch c :: toks, ?_, by rw [toksToChars, htoks]⟩
      rw [h1]
      show lexStringBody (c :: (escapeChars cs ++ '"' :: rest)) = _
      rw [lexStringBody.eq_def]
      try dsimp only
      rw [if_neg hq, if_neg hb, if_neg hctrl, hlex]
      rfl

/-- parseStringBody_escape parses back an escaped string body up to the
closing quote, leaving the remaining input untouched. -/
theorem parseStringBody_escape (cs : List Char) :
    ∀ rest, parseStringBody (escapeChars cs ++ '"' :: rest) = some (cs, rest) := by
  intro rest
  obtain ⟨toks, hlex, htoks⟩ := lexStringBody_escape cs rest
  unfold parseStringBody
  rw [hlex]
  dsimp only
  rw [htoks]

/-- skipWs_not_ws leaves input starting with a non-whitespace character
untouched. -/
theorem skipWs_not_ws (c : Char) (cs : List Char) (h : isWsChar c = false) :
    skipWs (c :: cs) = c :: cs := by
  simp [skipWs, h]

/-- jweight_pos states every JSON value has positive weight. -/
theorem jweight_pos (v : JsonValue) : 0 < jweight v := by
  cases v <;> simp [jweight]

/-- printVal_head exposes the first printed character of any JSON value: a
non-whitespace ASCII character that is neither a closing bracket nor a
closing brace. -/
theorem printVal_head (v : JsonValue) :
    ∃ c cs2, printVal v = c :: cs2 ∧ c.toNat < 128 ∧ isWsChar c = false ∧
      c.toNat ≠ 93 ∧ c.toNat ≠ 125 := by
  cases v with
  | null => exact ⟨'n', _, rfl, by decide, rfl, by decide, by decide⟩
  | bool b =>
    cases b with
    | true => exact ⟨'t', _, rfl, by decide, rfl, by decide, by decide⟩
    | false => exact ⟨'f', _, rfl, by decide, rfl, by decide, by decide⟩
  | str s => exact ⟨'"', _, rfl, by decide, rfl, by decide, by decide⟩
  | arr xs => exact ⟨'[', _, rfl, by decide, rfl, by decide, by decide⟩
  | obj fs => exact ⟨lbraceChar, _, rfl, by decide, rfl, by decide, by decide⟩
  | num k =>
    by_cases hneg : k < 0
    · refine ⟨'-', natToDigits k.natAbs, ?_, by decide, by decide, by decide, by decide⟩
      show intToChars k = _
      rw [intToChars, if_pos hneg]
    · obtain ⟨d, cs, hd10, heq, _⟩ := natToDigits_head k.natAbs
      have ht := digitChar_toNat d hd10
      refine ⟨digitChar d, cs, ?_, by omega, ?_, by omega, by omega⟩
      · show intToChars k = _
        rw [intToChars, if_neg hneg, heq]
      · simp [isWsChar, ht]
        omega

/-- jweight_le_print bounds the parser fuel needed for a printed value by
the printed length. -/
theorem jweight_le_print (n : Nat) :
    (∀ v, jweight v ≤ n → jweight v ≤ (printVal v).length) ∧
    (∀ xs, jweightElems xs ≤ n → jweightElems xs ≤ (printElems xs).length + 1) ∧
    (∀ fs, jweightFields fs ≤ n → jweightFields fs ≤ (printFields fs).length + 1) := by
  induction n using Nat.strong_induction_on with
  | _ n ih =>
    refine ⟨?_, ?_, ?_⟩
    · intro v hv
      cases v with
      | null => decide
      | bool b => cases b <;> decide
      | num k =>
        have hw : jweight (JsonValue.num k) = 1 := by simp [jweight]
        rw [hw]
        by_cases hneg : k < 0
        · show 1 ≤ (intToChars k).length
          rw [intToChars, if_pos hneg]
          simp
        · obtain ⟨d, cs, _, heq, _⟩ := natToDigits_head k.natAbs
          show 1 ≤ (intToChars k).length
          rw [intToChars, if_neg hneg, heq]
          simp
      | str s => simp [jweight, printVal, printString]
      | arr xs =>
        rw [jweight] at hv ⊢
        have hn1 : jweightElems xs ≤ n - 1 := by omega
        have hlt : n - 1 < n := by omega
        have hE := (ih (n - 1) hlt).2.1 xs hn1
        rw [printVal]
        simp only [List.length_cons, List.length_append, List.length_singleton]
        omega
      | obj fs =>
        rw [jweight] at hv ⊢
        have hn1 : jweightFields fs ≤ n - 1 := by omega
        have hlt : n - 1 < n := by omega
        have hF := (ih (n - 1) hlt).2.2 fs hn1
        rw [printVal]
        simp only [List.length_cons, List.length_append, List.length_singleton]
        omega
    · intro xs hxs
      cases xs with
      | nil => simp [jweightElems, printElems]
      | cons x xs2 =>
        rw [jweightElems] at hxs ⊢
        have hxpos := jweight_pos x
        have hn1 : n - 1 < n := by omega
        have hA := (ih (n - 1) hn1).1 x (by omega)
        cases xs2 with
        | nil =>
          rw [printElems]
          simp [jweightElems]
          omega
        | cons y ys =>
          have hB := (ih (n - 1) hn1).2.1 (y :: ys) (by omega)
          rw [printElems]
          simp only [List.length_append, List.length_cons]
          omega
    · intro fs hfs
      cases fs with
      | nil => simp [jweightFields, printFields]
      | cons f fs2 =>
        obtain ⟨k, v⟩ := f
        rw [jweightFields] at hfs ⊢
        have hvpos := jweight_pos v
        have hn1 : n - 1 < n := by omega
        have hA := (ih (n - 1) hn1).1 v (by omega)
        cases fs2 with
        | nil =>
          rw [printFields]
          simp [jweightFields]
          omega
        | cons g gs =>
          have hC := (ih (n - 1) hn1).2.2 (g :: gs) (by omega)
          rw [printFields]
          simp only [List.length_append, List.length_cons]
          omega

/-- printElems_cons_head exposes the first printed character of a non-empty
element list: the head of its first element's printing. -/
theorem printElems_cons_head (x : JsonValue) (xs : List JsonValue) :
    ∃ c tail, printElems (x :: xs) = c :: tail ∧ isWsChar c = false ∧ c.toNat ≠ 93 := by
  obtain ⟨c, cs2, hxeq, _, hws, h93, _⟩ := printVal_head x
  cases xs with
  | nil => exact ⟨c, cs2, by rw [printElems, hxeq], hws, h93⟩
  | cons y ys =>
    refine ⟨c, cs2 ++ (',' :: printElems (y :: ys)), ?_, hws, h93⟩
    rw [printElems, hxeq]
    rfl

/-- printFields_head exposes the leading quote of a non-empty printed field
list. -/
theorem printFields_head (f : String × JsonValue) (fs : List (String × JsonValue)) :
    ∃ tail, printFields (f :: fs) = '"' :: tail := by
  obtain ⟨k, v⟩ := f
  cases fs with
  | nil =>
    refine ⟨escapeChars k.toList ++ ['"'] ++ (':' :: printVal v), ?_⟩
    rw [printFields, printString]
    rfl
  | cons g gs =>
    refine ⟨escapeChars k.toList ++ ['"']
      ++ (':' :: (printVal v ++ (',' :: printFields (g :: gs)))), ?_⟩
    rw [printFields, printString]
    rfl

/-- numBoundary_comma holds after a printed element separator. -/
theorem numBoundary_comma (r : List Char) : numBoundary (',' :: r) = true := by
  simp [numBoundary, digitVal]

/-- numBoundary_rbracket holds before a printed closing bracket. -/
theorem numBoundary_rbracket (r : List Char) : numBoundary (']' :: r) = true := by
  simp [numBoundary, digitVal]

/-- numBoundary_rbrace holds before a printed closing brace. -/
theorem numBoundary_rbrace (r : List Char) : numBoundary (rbraceChar :: r) = true := by
  simp [numBoundary, digitVal, rbraceChar]

/-- string_mk_toList reassembles a string from its character list. -/
theorem string_mk_toList (s : String) : String.mk s.toList = s := by
  cases s
  rfl

/-- parsePrint is the printer/parser round trip, proved for the three
mutually recursive parser entry points at once by strong induction on the
structural weight: a printed value parses back to itself whenever the fuel
covers its weight and the following input cannot extend a number literal. -/
theorem parsePrint (n : Nat) :
    (∀ v fuel rest, jweight v ≤ n → jweight v ≤ fuel → numBoundary rest = true →
      parseValue fuel (printVal v ++ rest) = some (v, rest)) ∧
    (∀ xs fuel rest, xs ≠ [] → jweightElems xs ≤ n → jweightElems xs ≤ fuel →
      parseElems fuel (printElems xs ++ ']' :: rest) = some (xs, rest)) ∧
    (∀ fs fuel rest, fs ≠ [] → jweightFields fs ≤ n → jweightFields fs ≤ fuel →
      parseFields fuel (printFields fs ++ rbraceChar :: rest) = some (fs, rest)) := by
  induction n using Nat.strong_induction_on with
  | _ n ih =>
    refine ⟨?_, ?_, ?_⟩
    · intro v fuel rest hn hf hbnd
      have hvpos := jweight_pos v
      cases fuel with
      | zero => omega
      | succ f =>
      cases v with
      | null =>
        show parseValue (f + 1) ('n' :: 'u' :: 'l' :: 'l' :: rest) = _
        rw [parseValue.eq_def]
        dsimp only
        rw [skipWs_not_ws _ _ (by decide)]
        dsimp only
        rw [if_neg (by decide), if_neg (by decide), if_neg (by decide), if_neg (by decide),
          if_neg (by decide), if_pos rfl]
        rfl
      | bool b =>
        cases b with
        | true =>
          show parseValue (f + 1) ('t' :: 'r' :: 'u' :: 'e' :: rest) = _
          rw [parseValue.eq_def]
          dsimp only
          rw [skipWs_not_ws _ _ (by decide)]
          dsimp only
          rw [if_neg (by decide), if_neg (by decide), if_neg (by decide), if_pos rfl]
          rfl
        | false =>
          show parseValue (f + 1) ('f' :: 'a' :: 'l' :: 's' :: 'e' :: rest) = _
          rw [parseValue.eq_def]
          dsimp only
          rw [skipWs_not_ws _ _ (by decide)]
          dsimp only
          rw [if_neg (by decide), if_neg (by decide), if_neg (by decide), if_neg (by decide),
            if_pos rfl]
          rfl
      | num k =>
        show parseValue (f + 1) (intToChars k ++ rest) = _
        by_cases hneg : k < 0
        · have hshape : intToChars k = '-' :: natToDigits k.natAbs := by
            rw [intToChars, if_pos hneg]
          rw [hshape]
          show parseValue (f + 1) ('-' :: (natToDigits k.natAbs ++ rest)) = _
          rw [parseValue.eq_def]
          dsimp only
          rw [skipWs_not_ws _ _ (by decide)]
          dsimp only
          rw [if_neg (by decide), if_neg (by decide), if_neg (by decide), if_neg (by decide),
            if_neg (by decide), if_neg (by decide)]
          have hb2 : ('-' :: (natToDigits k.natAbs ++ rest)) = intToChars k ++ rest := by
            rw [hshape]
            rfl
          rw [hb2, parseNumber_int k rest hbnd]
        · obtain ⟨d, cs, hd10, heq, _⟩ := natToDigits_head k.natAbs
          have hshape : intToChars k = digitChar d :: cs := by
            rw [intToChars, if_neg hneg, heq]
          rw [hshape]
          have ht := digitChar_toNat d hd10
          show parseValue (f + 1) (digitChar d :: (cs ++ rest)) = _
          rw [parseValue.eq_def]
          dsimp only
          rw [skipWs_not_ws _ _ (by simp [isWsChar, ht]; omega)]
          dsimp only
          have hlb : (lbraceChar).toNat = 123 := by decide
          have hbra : ('[').toNat = 91 := rfl
          have hquo : ('"').toNat = 34 := rfl
          have htc : ('t').toNat = 116 := rfl
          have hfc : ('f').toNat = 102 := rfl
          have hnc : ('n').toNat = 110 := rfl
          rw [if_neg (char_ne_of_toNat_ne _ _ (by omega)),
            if_neg (char_ne_of_toNat_ne _ _ (by omega)),
            if_neg (char_ne_of_toNat_ne _ _ (by omega)),
            if_neg (char_ne_of_toNat_ne _ _ (by omega)),
            if_neg (char_ne_of_toNat_ne _ _ (by omega)),
            if_neg (char_ne_of_toNat_ne _ _ (by omega))]
          have hb2 : (digitChar d :: (cs ++ rest)) = intToChars k ++ rest := by
            rw [hshape]
            rfl
          rw [hb2, parseNumber_int k rest hbnd]
      | str s =>
        have hshape : printVal (JsonValue.str s) ++ rest
            = '"' :: (escapeChars s.toList ++ '"' :: rest) := by
          show printString s ++ rest = _
          rw [printString]
          simp
        rw [hshape, parseValue.eq_def]
        dsimp only
        rw [skipWs_not_ws _ _ (by decide)]
        dsimp only
        rw [if_neg (by decide), if_neg (by decide), if_pos rfl]
        rw [parseStringBody_escape s.toList rest]
        dsimp only
        rw [string_mk_toList]
      | arr xs =>
        cases xs with
        | nil =>
          have hshape : printVal (JsonValue.arr []) ++ rest = '[' :: ']' :: rest := by
            show ('[' :: (printElems [] ++ [']'])) ++ rest = _
            rw [printElems]
            simp
          rw [hshape, parseValue.eq_def]
          dsimp only
          rw [skipWs_not_ws _ _ (by decide)]
          dsimp only
          rw [if_neg (by decide), if_pos rfl]
          rw [skipWs_not_ws _ _ (by decide)]
          dsimp only
          rw [if_pos rfl]
        | cons x xs2 =>
          obtain ⟨c, tail, hpe, hws, h93⟩ := printElems_cons_head x xs2
          have hshape : printVal (JsonValue.arr (x :: xs2)) ++ rest
              = '[' :: (c :: (tail ++ ']' :: rest)) := by
            show ('[' :: (printElems (x :: xs2) ++ [']'])) ++ rest = _
            rw [hpe]
            simp
          rw [hshape, parseValue.eq_def]
          dsimp only
          rw [skipWs_not_ws _ _ (by decide)]
          dsimp only
          rw [if_neg (by decide), if_pos rfl]
          rw [skipWs_not_ws _ _ hws]
          dsimp only
          have hne : ¬ c = ']' := char_ne_of_toNat_ne _ _ (by
            have hrb : (']').toNat = 93 := rfl
            omega)
          rw [if_neg hne]
          have hback : c :: (tail ++ ']' :: rest) = printElems (x :: xs2) ++ ']' :: rest := by
            rw [hpe]
            rfl
          rw [hback]
          rw [jweight] at hn hf
          have hE : jweightElems (x :: xs2) = 1 + jweight x + jweightElems xs2 := by
            rw [jweightElems]
          have hxp := jweight_pos x
          have hB := (ih (n - 1) (by omega)).2.1 (x :: xs2) f rest (by simp)
            (by omega) (by omega)
          rw [hB]
      | obj fs =>
        cases fs with
        | nil =>
          have hshape : printVal (JsonValue.obj []) ++ rest
              = lbraceChar :: rbraceChar :: rest := by
            show (lbraceChar :: (printFields [] ++ [rbraceChar])) ++ rest = _
            rw [printFields]
            simp
          rw [hshape, parseValue.eq_def]
          dsimp only
          rw [skipWs_not_ws _ _ (by decide)]
          dsimp only
          rw [if_pos rfl]
          rw [skipWs_not_ws _ _ (by decide)]
          dsimp only
          rw [if_pos rfl]
        | cons g gs =>
          obtain ⟨tail, hpf⟩ := printFields_head g gs
          have hshape : printVal (JsonValue.obj (g :: gs)) ++ rest
              = lbraceChar :: ('"' :: (tail ++ rbraceChar :: rest)) := by
            show (lbraceChar :: (printFields (g :: gs) ++ [rbraceChar])) ++ rest = _
            rw [hpf]
            simp
          rw [hshape, parseValue.eq_def]
          dsimp only
          rw [skipWs_not_ws _ _ (by decide)]
          dsimp only
          rw [if_pos rfl]
          rw [skipWs_not_ws _ _ (by decide)]
          dsimp only
          rw [if_neg (by decide)]
          have hback : '"' :: (tail ++ rbraceChar :: rest)
              = printFields (g :: gs) ++ rbraceChar :: rest := by
            rw [hpf]
            rfl
          rw [hback]
          rw [jweight] at hn hf
          obtain ⟨k, v⟩ := g
          have hF : jweightFields ((k, v) :: gs) = 1 + jweight v + jweightFields gs := by
            rw [jweightFields]
          have hvp := jweight_pos v
          have hC := (ih (n - 1) (by omega)).2.2 ((k, v) :: gs) f rest (by simp)
            (by omega) (by omega)
          rw [hC]
    · intro xs fuel rest hne hn hf
      cases xs with
      | nil => exact absurd rfl hne
      | cons x xs2 =>
        have hE : jweightElems (x :: xs2) = 1 + jweight x + jweightElems xs2 := by
          rw [jweightElems]
        have hxpos := jweight_pos x
        cases fuel with
        | zero => omega
        | succ f =>
        rw [parseElems.eq_def]
        dsimp only
        cases xs2 with
        | nil =>
          have hshape : printElems [x] ++ ']' :: rest = printVal x ++ (']' :: rest) := by
            rw [printElems]
          rw [hshape]
          have hA := (ih (n - 1) (by omega)).1 x f (']' :: rest) (by omega) (by omega)
            (numBoundary_rbracket rest)
          rw [hA]
          dsimp only
          rw [skipWs_not_ws _ _ (by decide)]
          dsimp only
          rw [if_neg (by decide), if_pos rfl]
        | cons y ys =>
          have hshape : printElems (x :: y :: ys) ++ ']' :: rest
              = printVal x ++ (',' :: (printElems (y :: ys) ++ ']' :: rest)) := by
            rw [printElems]
            simp
          rw [hshape]
          have hE2 : jweightElems (y :: ys) = 1 + jweight y + jweightElems ys := by
            rw [jweightElems]
          have hypos := jweight_pos y
          have hA := (ih (n - 1) (by omega)).1 x f
            (',' :: (printElems (y :: ys) ++ ']' :: rest)) (by omega) (by omega)
            (numBoundary_comma _)
          rw [hA]
          dsimp only
          rw [skipWs_not_ws _ _ (by decide)]
          dsimp only
          rw [if_pos rfl]
          have hB := (ih (n - 1) (by omega)).2.1 (y :: ys) f rest (by simp)
            (by omega) (by omega)
          rw [hB]
    · intro fs fuel rest hne hn hf
      cases fs with
      | nil => exact absurd rfl hne
      | cons g gs =>
        obtain ⟨k, v⟩ := g
        have hF : jweightFields ((k, v) :: gs) = 1 + jweight v + jweightFields gs := by
          rw [jweightFields]
        have hvpos := jweight_pos v
        cases fuel with
        | zero => omega
        | succ f =>
        rw [parseFields.eq_def]
        dsimp only
        cases gs with
        | nil =>
          have hshape : printFields [(k, v)] ++ rbraceChar :: rest
              = '"' :: (escapeChars k.toList
                  ++ '"' :: (':' :: (printVal v ++ rbraceChar :: rest))) := by
            rw [printFields, printString]
            simp
          rw [hshape]
          dsimp only
          rw [if_pos rfl]
          rw [parseStringBody_escape k.toList _]
          dsimp only
          rw [skipWs_not_ws _ _ (by decide)]
          dsimp only
          rw [if_pos rfl]
          have hA := (ih (n - 1) (by omega)).1 v f (rbraceChar :: rest) (by omega) (by omega)
            (numBoundary_rbrace rest)
          rw [hA]
          dsimp only
          rw [skipWs_not_ws _ _ (by decide)]
          dsimp only
          rw [if_neg (by decide), if_pos rfl, string_mk_toList]
        | cons g2 gs2 =>
          obtain ⟨k2, v2⟩ := g2
          obtain ⟨tail2, hpf2⟩ := printFields_head (k2, v2) gs2
          have hshape : printFields ((k, v) :: (k2, v2) :: gs2) ++ rbraceChar :: rest
              = '"' :: (escapeChars k.toList ++ '"' ::
                  (':' :: (printVal v
                    ++ (',' :: (printFields ((k2, v2) :: gs2) ++ rbraceChar :: rest))))) := by
            rw [printFields, printString]
            simp
          rw [hshape]
          dsimp only
          rw [if_pos rfl]
          rw [parseStringBody_escape k.toList _]
          dsimp only
          rw [skipWs_not_ws _ _ (by decide)]
          dsimp only
          rw [if_pos rfl]
          have hF2 : jweightFields ((k2, v2) :: gs2) = 1 + jweight v2 + jweightFields gs2 := by
            rw [jweightFields]
          have hv2pos := jweight_pos v2
          have hA := (ih (n - 1) (by omega)).1 v f
            (',' :: (printFields ((k2, v2) :: gs2) ++ rbraceChar :: rest))
            (by omega) (by omega) (numBoundary_comma _)
          rw [hA]
          dsimp only
          rw [skipWs_not_ws _ _ (by decide)]
          dsimp only
          rw [if_pos rfl]
          have hskip : skipWs (printFields ((k2, v2) :: gs2) ++ rbraceChar :: rest)
              = printFields ((k2, v2) :: gs2) ++ rbraceChar :: rest := by
            rw [hpf2]
            show skipWs ('"' :: (tail2 ++ rbraceChar :: rest)) = _
            exact skipWs_not_ws _ _ (by decide)
          rw [hskip]
          have hC := (ih (n - 1) (by omega)).2.2 ((k2, v2) :: gs2) f rest (by simp)
            (by omega) (by omega)
          rw [hC, string_mk_toList]

/-- stringify_parse states the printer/parser round trip at the API level:
`JSON.parse` inverts `JSON.stringify`. -/
theorem stringify_parse (v : JsonValue) : jsonParse (jsonStringify v) = some v := by
  have hw := (jweight_le_print (jweight v)).1 v (le_refl _)
  have hA := (parsePrint (jweight v)).1 v ((printVal v).length + 1) [] (le_refl _)
    (by omega) rfl
  rw [List.append_nil] at hA
  unfold jsonParse jsonStringify
  have htl : (String.mk (printVal v)).toList = printVal v := rfl
  dsimp only
  rw [htl, hA]
  rfl

/-- utf8DecodeChars_encodeChar decodes one encoded character off the front
of a byte stream. -/
theorem utf8DecodeChars_encodeChar (c : Char) (bs : List Nat) :
    utf8DecodeChars (utf8EncodeChar c ++ bs) = c :: utf8DecodeChars bs := by
  have hval := char_valid_ranges c
  by_cases h1 : c.toNat < 128
  · have henc : utf8EncodeChar c = [c.toNat] := by
      unfold utf8EncodeChar
      try dsimp only
      rw [if_pos h1]
    rw [henc]
    show utf8DecodeChars (c.toNat :: bs) = _
    rw [utf8DecodeChars.eq_def]
    try dsimp only
    rw [if_pos h1, Char.ofNat_toNat]
  · by_cases h2 : c.toNat < 2048
    · have henc : utf8EncodeChar c = [192 + c.toNat / 64, 128 + c.toNat % 64] := by
        unfold utf8EncodeChar
        try dsimp only
        rw [if_neg h1, if_pos h2]
      rw [henc]
      show utf8DecodeChars (_ :: _ :: bs) = _
      rw [utf8DecodeChars.eq_def]
      try dsimp only
      have hgea : ¬ 192 + c.toNat / 64 < 128 := by omega
      have hgeb : ¬ 192 + c.toNat / 64 < 194 := by omega
      have hgec : 192 + c.toNat / 64 < 224 := by omega
      rw [if_neg hgea, if_neg hgeb, if_pos hgec]
      try dsimp only
      rw [if_pos (by simp [isCont]; omega)]
      have hv : (192 + c.toNat / 64 - 192) * 64 + (128 + c.toNat % 64 - 128) = c.toNat := by
        omega
      rw [hv, Char.ofNat_toNat]
    · by_cases h3 : c.toNat < 65536
      · have henc : utf8EncodeChar c
            = [224 + c.toNat / 4096, 128 + c.toNat / 64 % 64, 128 + c.toNat % 64] := by
          unfold utf8EncodeChar
          try dsimp only
          rw [if_neg h1, if_neg h2, if_pos h3]
        rw [henc]
        show utf8DecodeChars (_ :: _ :: _ :: bs) = _
        rw [utf8DecodeChars.eq_def]
        try dsimp only
        have hg3a : ¬ 224 + c.toNat / 4096 < 128 := by omega
        have hg3b : ¬ 224 + c.toNat / 4096 < 194 := by omega
        have hg3c : ¬ 224 + c.toNat / 4096 < 224 := by omega
        have hg3d : 224 + c.toNat / 4096 < 240 := by omega
        rw [if_neg hg3a, if_neg hg3b, if_neg hg3c, if_pos hg3d]
        try dsimp only
        have hcond : (if 224 + c.toNat / 4096 = 224 then 160 else 128) ≤ 128 + c.toNat / 64 % 64
            ∧ 128 + c.toNat / 64 % 64 ≤ (if 224 + c.toNat / 4096 = 237 then 159 else 191) := by
          constructor
          · split
            · omega
            · omega
          · split
            · rcases hval with hlt | ⟨hge, _⟩
              · omega
              · omega
            · omega
        rw [if_pos hcond]
        try dsimp only
        rw [if_pos (by simp [isCont]; omega)]
        have hv : (224 + c.toNat / 4096 - 224) * 4096 + (128 + c.toNat / 64 % 64 - 128) * 64
            + (128 + c.toNat % 64 - 128) = c.toNat := by omega
        rw [hv, Char.ofNat_toNat]
      · have h4 : c.toNat < 1114112 := by rcases hval with hlt | ⟨_, hlt2⟩ <;> omega
        have henc : utf8EncodeChar c
            = [240 + c.toNat / 262144, 128 + c.toNat / 4096 % 64, 128 + c.toNat / 64 % 64,
               128 + c.toNat % 64] := by
          unfold utf8EncodeChar
          try dsimp only
          rw [if_neg h1, if_neg h2, if_neg h3]
        rw [henc]
        show utf8DecodeChars (_ :: _ :: _ :: _ :: bs) = _
        rw [utf8DecodeChars.eq_def]
        try dsimp only
        have hg4a : ¬ 240 + c.toNat / 262144 < 128 := by omega
        have hg4b : ¬ 240 + c.toNat / 262144 < 194 := by omega
        have hg4c : ¬ 240 + c.toNat / 262144 < 224 := by omega
        have hg4d : ¬ 240 + c.toNat / 262144 < 240 := by omega
        have hg4e : 240 + c.toNat / 262144 < 245 := by omega
        rw [if_neg hg4a, if_neg hg4b, if_neg hg4c, if_neg hg4d, if_pos hg4e]
        try dsimp only
        have hcond : (if 240 + c.toNat / 262144 = 240 then 144 else 128)
              ≤ 128 + c.toNat / 4096 % 64
            ∧ 128 + c.toNat / 4096 % 64 ≤ (if 240 + c.toNat / 262144 = 244 then 143 else 191) := by
          constructor
          · split
            · omega
            · omega
          · split
            · omega
            · omega
        rw [if_pos hcond]
        try dsimp only
        rw [if_pos (by simp [isCont]; omega)]
        try dsimp only
        rw [if_pos (by simp [isCont]; omega)]
        have hv : (240 + c.toNat / 262144 - 240) * 262144 + (128 + c.toNat / 4096 % 64 - 128) * 4096
            + (128 + c.toNat / 64 % 64 - 128) * 64 + (128 + c.toNat % 64 - 128) = c.toNat := by
          omega
        rw [hv, Char.ofNat_toNat]

/-- utf8_decode_encode_chars is the UTF-8 round trip on character lists. -/
theorem utf8_decode_encode_chars (cs : List Char) :
    utf8DecodeChars (utf8EncodeChars cs) = cs := by
  induction cs with
  | nil => rfl
  | cons c cs ih =>
    rw [utf8EncodeChars, utf8DecodeChars_encodeChar, ih]

/-- utf8DecodeBytes_head_ne shows the BOM stripping is inert on byte
sequences not led by 0xEF. -/
theorem utf8DecodeBytes_head_ne (b : Nat) (bs : List Nat) (h : b ≠ 239) :
    utf8DecodeBytes (b :: bs) = utf8DecodeChars (b :: bs) := by
  rw [utf8DecodeBytes.eq_def]
  split
  · simp_all
  · rfl

/-- utf8Decode_encode_print is the byte-level round trip for printed JSON
text, whose first character is ASCII and hence not a BOM lead byte. -/
theorem utf8Decode_encode_print (v : JsonValue) :
    utf8Decode (utf8Encode (jsonStringify v)) = jsonStringify v := by
  obtain ⟨c, cs2, hveq, hlt, _, _, _⟩ := printVal_head v
  unfold utf8Decode utf8Encode jsonStringify
  have htl : (String.mk (printVal v)).toList = printVal v := rfl
  rw [htl, hveq]
  have henc : utf8EncodeChars (c :: cs2) = c.toNat :: utf8EncodeChars cs2 := by
    rw [utf8EncodeChars]
    have h1 : utf8EncodeChar c = [c.toNat] := by
      unfold utf8EncodeChar
      try dsimp only
      rw [if_pos hlt]
    rw [h1]
    rfl
  rw [henc]
  rw [utf8DecodeBytes_head_ne _ _ (by omega)]
  rw [← henc]
  have := utf8_decode_encode_chars (c :: cs2)
  rw [utf8EncodeChars] at this
  rw [show utf8EncodeChar c ++ utf8EncodeChars cs2 = utf8EncodeChars (c :: cs2) from by
    rw [utf8EncodeChars]] at this
  rw [this]

/-- isGossipMessage_obj shows a validated envelope is an object. -/
theorem isGossipMessage_obj (p : ShapePreds) (v : JsonValue)
    (h : isGossipMessage p v = true) : ∃ fs, v = JsonValue.obj fs := by
  cases v <;> simp_all [isGossipMessage]

/-- decode_encoded shows decoding the encoding of a valid envelope yields it
back. -/
theorem decode_encoded (p : ShapePreds) (v : JsonValue) (h : isGossipMessage p v = true) :
    decodeMessage p (utf8Encode (jsonStringify v)) = Result.ok v := by
  unfold decodeMessage
  rw [utf8Decode_encode_print v, stringify_parse v]
  obtain ⟨fs, rfl⟩ := isGossipMessage_obj p _ h
  dsimp only
  rw [show jsFalsy (JsonValue.obj fs) = false from rfl]
  rw [h]
  rfl

/-- encode_valid shows encoding a valid envelope produces the UTF-8 bytes of
its JSON text. -/
theorem encode_valid (p : ShapePreds) (v : JsonValue) (h : isGossipMessage p v = true) :
    encodeMessage p v = Result.ok (utf8Encode (jsonStringify v)) := by
  unfold encodeMessage
  rw [h]
  rfl

/-- decodeMessage_cases shows every decode returns ok or the single decode
error string. -/
theorem decodeMessage_cases (p : ShapePreds) (data : List Nat) :
    (∃ v, decodeMessage p data = Result.ok v) ∨
      decodeMessage p data = Result.err "Failed to decode Gossip message..." := by
  unfold decodeMessage
  cases jsonParse (utf8Decode data) with
  | none => exact Or.inr rfl
  | some m =>
    dsimp only
    by_cases h1 : jsFalsy m = true
    · rw [if_pos h1]
      exact Or.inr rfl
    · rw [if_neg h1]
      by_cases h2 : (!isGossipMessage p m) = true
      · rw [if_pos h2]
        exact Or.inr rfl
      · rw [if_neg h2]
        exact Or.inl ⟨m, rfl⟩

/-- decodeMessage_parse_none shows a parse failure (the modelled thrown
exception) is converted into the error result. -/
theorem decodeMessage_parse_none (p : ShapePreds) (data : List Nat)
    (h : jsonParse (utf8Decode data) = none) :
    decodeMessage p data = Result.err "Failed to decode Gossip message..." := by
  unfold decodeMessage
  rw [h]

/-- all_str_map shows a mapped string list satisfies the element-wise string
check of the validator. -/
theorem all_str_map (l : List String) :
    (List.map JsonValue.str l).all
      (fun t => match t with | JsonValue.str _ => true | _ => false) = true := by
  induction l with
  | nil => rfl
  | cons a as iha => simp_all

/-- C1: for every valid envelope (content matching one of the three
variants and topics a non-empty sequence of strings, i.e. an envelope the
validator accepts), `encodeMessage` succeeds and `decodeMessage` on the
resulting bytes succeeds and returns an envelope structurally equal to the
original. -/
theorem claim_c1 (p : ShapePreds) (v : JsonValue) (h : isGossipMessage p v = true) :
    ∃ bytes, encodeMessage p v = Result.ok bytes ∧ decodeMessage p bytes = Result.ok v :=
  ⟨utf8Encode (jsonStringify v), encode_valid p v h, decode_encoded p v h⟩

/-- Witness for C1 at the contact-info envelope of the spec's concrete
scenario 1. -/
theorem claim_c1_witness :
    isGossipMessage ⟨fun _ => false, fun _ => false⟩
        (JsonValue.obj [("content", JsonValue.obj [("peerId", JsonValue.str "peer-42")]),
          ("topics", JsonValue.arr [JsonValue.str "f_network_topic_contact"])]) = true ∧
    ∃ bytes,
      encodeMessage ⟨fun _ => false, fun _ => false⟩
          (JsonValue.obj [("content", JsonValue.obj [("peerId", JsonValue.str "peer-42")]),
            ("topics", JsonValue.arr [JsonValue.str "f_network_topic_contact"])])
        = Result.ok bytes ∧
      decodeMessage ⟨fun _ => false, fun _ => false⟩ bytes
        = Result.ok
            (JsonValue.obj [("content", JsonValue.obj [("peerId", JsonValue.str "peer-42")]),
              ("topics", JsonValue.arr [JsonValue.str "f_network_topic_contact"])]) :=
  ⟨rfl, claim_c1 _ _ rfl⟩

/-- C2: decodeMessage is total — on every input it returns an ok envelope
or the error result, and the modelled parse exception (`jsonParse`
returning `none`) is caught and converted into the error result. -/
theorem claim_c2 (p : ShapePreds) (data : List Nat) :
    ((∃ v, decodeMessage p data = Result.ok v) ∨
      decodeMessage p data = Result.err "Failed to decode Gossip message...") ∧
    (jsonParse (utf8Decode data) = none →
      decodeMessage p data = Result.err "Failed to decode Gossip message...") :=
  ⟨decodeMessage_cases p data, decodeMessage_parse_none p data⟩

/-- Witness for C2 on a malformed input (the spec's concrete scenario 3:
bytes of text that is not JSON). -/
theorem claim_c2_witness :
    decodeMessage ⟨fun _ => false, fun _ => false⟩ (utf8Encode "not json")
      = Result.err "Failed to decode Gossip message..." :=
  (claim_c2 ⟨fun _ => false, fun _ => false⟩ (utf8Encode "not json")).2 rfl

/-- C3: an envelope failing shape validation is rejected by `encodeMessage`
with the error result, producing no bytes. -/
theorem claim_c3 (p : ShapePreds) (v : JsonValue) (h : isGossipMessage p v = false) :
    encodeMessage p v = Result.err "Invalid Message" := by
  unfold encodeMessage
  rw [h]
  rfl

/-- Witness for C3 at an envelope with an empty topics sequence. -/
theorem claim_c3_witness :
    isGossipMessage ⟨fun _ => false, fun _ => false⟩
        (JsonValue.obj [("content", JsonValue.obj [("peerId", JsonValue.str "p1")]),
          ("topics", JsonValue.arr [])]) = false ∧
    encodeMessage ⟨fun _ => false, fun _ => false⟩
        (JsonValue.obj [("content", JsonValue.obj [("peerId", JsonValue.str "p1")]),
          ("topics", JsonValue.arr [])])
      = Result.err "Invalid Message" :=
  ⟨rfl, claim_c3 _ _ rfl⟩

/-- C4: bytes whose text parses as JSON to a value failing shape validation
decode to the error result, never ok. -/
theorem claim_c4 (p : ShapePreds) (data : List Nat) (v : JsonValue)
    (h1 : jsonParse (utf8Decode data) = some v) (h2 : isGossipMessage p v = false) :
    decodeMessage p data = Result.err "Failed to decode Gossip message..." := by
  unfold decodeMessage
  rw [h1]
  dsimp only
  by_cases hf : jsFalsy v = true
  · rw [if_pos hf]
  · rw [if_neg hf, if_pos (by rw [h2]; rfl)]

/-- Witness for C4 at the spec's concrete scenario 4 (valid JSON with an
empty topics array). -/
theorem claim_c4_witness :
    jsonParse (utf8Decode (utf8Encode "\x7b\"content\":\x7b\"peerId\":\"p1\"\x7d,\"topics\":[]\x7d"))
        = some (JsonValue.obj [("content", JsonValue.obj [("peerId", JsonValue.str "p1")]),
          ("topics", JsonValue.arr [])]) ∧
    isGossipMessage ⟨fun _ => false, fun _ => false⟩
        (JsonValue.obj [("content", JsonValue.obj [("peerId", JsonValue.str "p1")]),
          ("topics", JsonValue.arr [])]) = false ∧
    decodeMessage ⟨fun _ => false, fun _ => false⟩
        (utf8Encode "\x7b\"content\":\x7b\"peerId\":\"p1\"\x7d,\"topics\":[]\x7d")
      = Result.err "Failed to decode Gossip message..." :=
  ⟨rfl, rfl, claim_c4 _ _ _ rfl rfl⟩

/-- Counterexample to C5 as stated: a byte sequence containing the invalid
byte 0xFF inside a JSON string is not valid UTF-8, yet `decodeMessage`
returns ok — the default `TextDecoder` replaces the invalid byte with
U+FFFD instead of throwing, and the replaced text is a valid envelope. -/
theorem claim_c5_counterexample :
    isValidUtf8 (utf8Encode "\x7b\"content\":\x7b\"peerId\":\"" ++ [255]
        ++ utf8Encode "\"\x7d,\"topics\":[\"t\"]\x7d") = false ∧
    decodeMessage ⟨fun _ => false, fun _ => false⟩
        (utf8Encode "\x7b\"content\":\x7b\"peerId\":\"" ++ [255]
          ++ utf8Encode "\"\x7d,\"topics\":[\"t\"]\x7d")
      = Result.ok
          (JsonValue.obj [("content", JsonValue.obj [("peerId", JsonValue.str "�")]),
            ("topics", JsonValue.arr [JsonValue.str "t"])]) :=
  ⟨rfl, rfl⟩

/-- C5 (amended): invalid UTF-8 bytes are decoded with U+FFFD replacement
rather than rejected outright; `decodeMessage` returns a DecodeError
whenever the replacement-decoded text fails to parse as JSON (in
particular for byte sequences whose replacement decoding is not
parseable), but a non-UTF-8 byte sequence whose replacement decoding forms
a valid envelope is accepted. -/
theorem claim_c5 (p : ShapePreds) (data : List Nat)
    (h : jsonParse (utf8Decode data) = none) :
    decodeMessage p data = Result.err "Failed to decode Gossip message..." :=
  decodeMessage_parse_none p data h

/-- Witness for the amended C5 at the lone invalid byte 0xFF, whose
replacement decoding is not JSON. -/
theorem claim_c5_witness :
    jsonParse (utf8Decode [255]) = none ∧
    decodeMessage ⟨fun _ => false, fun _ => false⟩ [255]
      = Result.err "Failed to decode Gossip message..." :=
  ⟨rfl, claim_c5 _ [255] rfl⟩

/-- C6: bytes parsing to a falsy value are rejected with the error result
for every choice of the external shape predicates — the validator is not
consulted. -/
theorem claim_c6 (data : List Nat) (v : JsonValue)
    (h1 : jsonParse (utf8Decode data) = some v) (h2 : jsFalsy v = true) :
    ∀ p : ShapePreds, decodeMessage p data = Result.err "Failed to decode Gossip message..." := by
  intro p
  unfold decodeMessage
  rw [h1]
  dsimp only
  rw [if_pos h2]

/-- Witness for C6 at the JSON text `null`. -/
theorem claim_c6_witness :
    jsonParse (utf8Decode (utf8Encode "null")) = some JsonValue.null ∧
    jsFalsy JsonValue.null = true ∧
    decodeMessage ⟨fun _ => false, fun _ => false⟩ (utf8Encode "null")
      = Result.err "Failed to decode Gossip message..." :=
  ⟨rfl, rfl, claim_c6 (utf8Encode "null") JsonValue.null rfl rfl ⟨fun _ => false, fun _ => false⟩⟩

/-- C7: the exported topic constants have exactly the specified string
values, the topic registry lists the contact topic then the primary topic,
and the contact-info republish interval is 10000. -/
theorem claim_c7 :
    NETWORK_TOPIC_PRIMARY = "f_network_topic_primary" ∧
    NETWORK_TOPIC_CONTACT = "f_network_topic_contact" ∧
    GOSSIP_TOPICS = [NETWORK_TOPIC_CONTACT, NETWORK_TOPIC_PRIMARY] ∧
    GOSSIP_TOPICS = ["f_network_topic_contact", "f_network_topic_primary"] ∧
    GOSSIP_CONTACT_INTERVAL = 10000 :=
  ⟨rfl, rfl, rfl, rfl, rfl⟩

/-- C8: encodeMessage is deterministic — equal input envelope values give
equal results. -/
theorem claim_c8 (p : ShapePreds) (m1 m2 : JsonValue) (h : m1 = m2) :
    encodeMessage p m1 = encodeMessage p m2 := by
  rw [h]

/-- Witness for C8 at a concrete contact-info envelope. -/
theorem claim_c8_witness :
    (JsonValue.obj [("content", JsonValue.obj [("peerId", JsonValue.str "peer-8")]),
        ("topics", JsonValue.arr [JsonValue.str "f_network_topic_contact"])]
      = JsonValue.obj [("content", JsonValue.obj [("peerId", JsonValue.str "peer-8")]),
        ("topics", JsonValue.arr [JsonValue.str "f_network_topic_contact"])]) ∧
    encodeMessage ⟨fun _ => false, fun _ => false⟩
        (JsonValue.obj [("content", JsonValue.obj [("peerId", JsonValue.str "peer-8")]),
          ("topics", JsonValue.arr [JsonValue.str "f_network_topic_contact"])])
      = encodeMessage ⟨fun _ => false, fun _ => false⟩
        (JsonValue.obj [("content", JsonValue.obj [("peerId", JsonValue.str "peer-8")]),
          ("topics", JsonValue.arr [JsonValue.str "f_network_topic_contact"])]) :=
  ⟨rfl, claim_c8 _ _ _ rfl⟩

/-- C9: topic membership is never checked against the registry — an
otherwise valid envelope whose topic strings all lie outside GOSSIP_TOPICS
still encodes successfully and its bytes decode back to it. -/
theorem claim_c9 (p : ShapePreds) (content : JsonValue) (topics : List String)
    (h1 : isValidContent p content = true) (h2 : topics ≠ [])
    (h3 : ∀ t ∈ topics, t ∉ GOSSIP_TOPICS) :
    ∃ bytes,
      encodeMessage p
          (JsonValue.obj [("content", content),
            ("topics", JsonValue.arr (List.map JsonValue.str topics))])
        = Result.ok bytes ∧
      decodeMessage p bytes
        = Result.ok
            (JsonValue.obj [("content", content),
              ("topics", JsonValue.arr (List.map JsonValue.str topics))]) := by
  have hgc : getField [("content", content),
      ("topics", JsonValue.arr (List.map JsonValue.str topics))] "content" = some content := rfl
  have hgt : getField [("content", content),
        ("topics", JsonValue.arr (List.map JsonValue.str topics))] "topics"
      = some (JsonValue.arr (List.map JsonValue.str topics)) := rfl
  have hg : isGossipMessage p
      (JsonValue.obj [("content", content),
        ("topics", JsonValue.arr (List.map JsonValue.str topics))]) = true := by
    cases topics with
    | nil => exact absurd rfl h2
    | cons t ts =>
      simp only [isGossipMessage, hgc, hgt]
      rw [h1]
      simp [all_str_map]
  exact ⟨_, encode_valid p _ hg, decode_encoded p _ hg⟩

/-- Witness for C9 at an envelope declaring only an unregistered topic. -/
theorem claim_c9_witness :
    isValidContent ⟨fun _ => false, fun _ => false⟩
        (JsonValue.obj [("peerId", JsonValue.str "p")]) = true ∧
    (["custom_topic_x"] ≠ ([] : List String)) ∧
    (∀ t ∈ ["custom_topic_x"], t ∉ GOSSIP_TOPICS) ∧
    ∃ bytes,
      encodeMessage ⟨fun _ => false, fun _ => false⟩
          (JsonValue.obj [("content", JsonValue.obj [("peerId", JsonValue.str "p")]),
            ("topics", JsonValue.arr (List.map JsonValue.str ["custom_topic_x"]))])
        = Result.ok bytes ∧
      decodeMessage ⟨fun _ => false, fun _ => false⟩ bytes
        = Result.ok
            (JsonValue.obj [("content", JsonValue.obj [("peerId", JsonValue.str "p")]),
              ("topics", JsonValue.arr (List.map JsonValue.str ["custom_topic_x"]))]) :=
  ⟨rfl, by simp, by decide, claim_c9 _ _ ["custom_topic_x"] rfl (by simp) (by decide)⟩

/-- C10: every decode failure collapses to the single error string, so the
caller cannot distinguish the cause, and encodeMessage's sole error value
is the string "Invalid Message". -/
theorem claim_c10 (p : ShapePreds) :
    (∀ data, (∃ v, decodeMessage p data = Result.ok v) ∨
      decodeMessage p data = Result.err "Failed to decode Gossip message...") ∧
    (∀ m e, encodeMessage p m = Result.err e → e = "Invalid Message") := by
  refine ⟨fun data => decodeMessage_cases p data, ?_⟩
  intro m e h
  unfold encodeMessage at h
  by_cases hg : isGossipMessage p m = true
  · rw [hg] at h
    simp at h
  · have hg2 : isGossipMessage p m = false := by
      revert hg
      cases isGossipMessage p m <;> simp
    rw [hg2] at h
    simp at h
    exact h.symm

/-- Witness for C10: the sole encode error value at an invalid envelope. -/
theorem claim_c10_witness :
    encodeMessage ⟨fun _ => false, fun _ => false⟩ JsonValue.null
      = Result.err "Invalid Message" ∧
    "Invalid Message" = "Invalid Message" :=
  ⟨rfl, (claim_c10 ⟨fun _ => false, fun _ => false⟩).2 JsonValue.null "Invalid Message" rfl⟩
